import Mathlib

/-!
Shallow embedding of the InsuraPro CRM core (repository `insurapro`,
files `src/cliente.cpp`, `src/interazione.cpp`, `src/crm.cpp`,
`include/cliente.h`, `include/interazione.h`, `include/crm.h`).

C++ `std::string` is modelled as `List Char`; the two persisted flat
files are modelled as a single `List Char` holding the full file
contents (newlines included), and a file that cannot be opened is
modelled as `none : Option Str`.  `std::vector<Cliente>` is a
`List Cliente`, held in iteration order exactly as the vector is.
-/

namespace Insurapro

/-- A C++ `std::string`, modelled as its list of characters. -/
abbrev Str := List Char

/-- `enum TipoInterazione` from `include/interazione.h`. -/
inductive TipoInterazione where
  | APPUNTAMENTO
  | CONTRATTO
  | TELEFONATA
  | EMAIL
  | ALTRO
deriving DecidableEq

/-- `class Interazione` (include/interazione.h): date, time, kind,
description, agent, outcome. -/
structure Interazione where
  data : Str
  ora : Str
  tipo : TipoInterazione
  descrizione : Str
  agente : Str
  risultato : Str
deriving DecidableEq

/-- `class Cliente` (include/cliente.h): seven string fields plus the
owned vector of interactions. -/
structure Cliente where
  nome : Str
  cognome : Str
  email : Str
  telefono : Str
  indirizzo : Str
  codiceFiscale : Str
  dataNascita : Str
  interazioni : List Interazione
deriving DecidableEq

/-- The default constructor `Cliente::Cliente()` (cliente.cpp, lines
17-26): every field is the empty string and the interaction list is
empty. -/
def clienteVuoto : Cliente :=
  ⟨[], [], [], [], [], [], [], []⟩

/-- The default constructor `Interazione::Interazione()` (interazione.cpp,
lines 17-24): empty strings and kind `ALTRO`. -/
def interazioneVuota : Interazione :=
  ⟨[], [], .ALTRO, [], [], []⟩

/-- The field separator written and parsed by the codec. -/
def sep : Char := '|'

/-- The line terminator written by `salvaDati` and consumed by `getline`. -/
def nl : Char := '\n'

/-- Display string of `APPUNTAMENTO` (interazione.cpp, line 42). -/
def strAppuntamento : Str := ['A', 'p', 'p', 'u', 'n', 't', 'a', 'm', 'e', 'n', 't', 'o']

/-- Display string of `CONTRATTO` (interazione.cpp, line 43). -/
def strContratto : Str := ['C', 'o', 'n', 't', 'r', 'a', 't', 't', 'o']

/-- Display string of `TELEFONATA` (interazione.cpp, line 44). -/
def strTelefonata : Str := ['T', 'e', 'l', 'e', 'f', 'o', 'n', 'a', 't', 'a']

/-- Display string of `EMAIL` (interazione.cpp, line 45). -/
def strEmail : Str := ['E', 'm', 'a', 'i', 'l']

/-- Display string of `ALTRO` (interazione.cpp, line 46). -/
def strAltro : Str := ['A', 'l', 't', 'r', 'o']

/-- `Interazione::getTipoStringa` (interazione.cpp, lines 41-48), as a
function of the kind.  The final `return "Sconosciuto"` of the C++ is
unreachable for a well-formed enumeration value and has no counterpart
in the total match. -/
def tipoStringa : TipoInterazione → Str
  | .APPUNTAMENTO => strAppuntamento
  | .CONTRATTO => strContratto
  | .TELEFONATA => strTelefonata
  | .EMAIL => strEmail
  | .ALTRO => strAltro

/-- `Interazione::getTipoStringa` as the member function it is in the
source. -/
def Interazione.getTipoStringa (i : Interazione) : Str :=
  tipoStringa i.tipo

/-- `Cliente::getNomeCompleto` (cliente.cpp, lines 72-74). -/
def Cliente.getNomeCompleto (c : Cliente) : Str :=
  c.nome ++ [' '] ++ c.cognome

/-- `Cliente::aggiungiInterazione` (cliente.cpp, lines 46-48):
`push_back` on the owned vector. -/
def Cliente.aggiungiInterazione (c : Cliente) (i : Interazione) : Cliente :=
  { c with interazioni := c.interazioni ++ [i] }

/-- `Cliente::rimuoviInterazione` (cliente.cpp, lines 51-55): erase the
element at `indice` when `0 <= indice < size`, otherwise do nothing. -/
def Cliente.rimuoviInterazione (c : Cliente) (indice : Int) : Cliente :=
  if 0 ≤ indice ∧ indice < (c.interazioni.length : Int) then
    { c with interazioni := c.interazioni.eraseIdx indice.toNat }
  else c

/-- `::tolower` as applied character by character by `std::transform`
in the search predicates (ASCII, "C" locale). -/
def cToLower (c : Char) : Char :=
  if 'A' ≤ c ∧ c ≤ 'Z' then Char.ofNat (c.toNat + 32) else c

/-- Lower-casing a whole string (`std::transform` over the string). -/
def toLowerStr (s : Str) : Str := s.map cToLower

/-- Whether `cerca` occurs at the very start of the string: the
positional check underlying `std::string::find`. -/
def leadsWith : Str → Str → Bool
  | _, [] => true
  | [], _ :: _ => false
  | c :: cs, d :: ds => c = d && leadsWith cs ds

/-- `std::string::find(cerca) != std::string::npos`: `cerca` occurs as
a contiguous substring of the receiver. -/
def findSub : Str → Str → Bool
  | [], cerca => cerca.isEmpty
  | c :: cs, cerca => leadsWith (c :: cs) cerca || findSub cs cerca

/-- `Cliente::contieneStringa` (cliente.cpp, lines 77-98): the search
term and the name, surname, email and phone fields are lower-cased
before the substring tests; the tax code is compared case-sensitively
against the original term. -/
def Cliente.contieneStringa (c : Cliente) (ricerca : Str) : Bool :=
  let ricercaLower := toLowerStr ricerca
  findSub (toLowerStr c.nome) ricercaLower ||
  findSub (toLowerStr c.cognome) ricercaLower ||
  findSub (toLowerStr c.email) ricercaLower ||
  findSub (toLowerStr c.telefono) ricercaLower ||
  findSub c.codiceFiscale ricerca

/-- `Interazione::contieneStringa` (interazione.cpp, lines 61-83). -/
def Interazione.contieneStringa (i : Interazione) (ricerca : Str) : Bool :=
  let ricercaLower := toLowerStr ricerca
  findSub (toLowerStr i.descrizione) ricercaLower ||
  findSub (toLowerStr i.agente) ricercaLower ||
  findSub (toLowerStr i.risultato) ricercaLower ||
  findSub (toLowerStr i.getTipoStringa) ricercaLower ||
  findSub i.data ricerca ||
  findSub i.ora ricerca

/-! ### Store operations (`crm.cpp`) -/

/-- `CRM::trovaCliente` (crm.cpp, lines 307-314): linear scan for the
first customer with the given tax code; the C++ `-1` sentinel becomes
`none`. -/
def trovaCliente : List Cliente → Str → Option Nat
  | [], _ => none
  | c :: resto, cf =>
    if c.codiceFiscale = cf then some 0
    else (trovaCliente resto cf).map (· + 1)

/-- The data-layer core of `CRM::aggiungiCliente` (crm.cpp, lines
37-45): refuse when `trovaCliente` already finds the tax code, else
`push_back` a freshly constructed customer (whose interaction list is
empty). -/
def aggiungiCliente (clienti : List Cliente)
    (nome cognome email telefono indirizzo codiceFiscale dataNascita : Str) :
    Option (List Cliente) :=
  if (trovaCliente clienti codiceFiscale).isSome then none
  else some (clienti ++
    [⟨nome, cognome, email, telefono, indirizzo, codiceFiscale, dataNascita, []⟩])

/-- Replace the first customer carrying tax code `cf` by `f` applied to
it; `none` when no customer matches.  This is the shared shape of the
`controllaEsistenzaCliente`-then-mutate operations of `crm.cpp`. -/
def modificaPrimo (cf : Str) (f : Cliente → Cliente) : List Cliente → Option (List Cliente)
  | [] => none
  | c :: resto =>
    if c.codiceFiscale = cf then some (f c :: resto)
    else (modificaPrimo cf f resto).map (c :: ·)

/-- The six conditional setter calls of `CRM::modificaCliente`
(crm.cpp, lines 77-93): a field supplied as the empty string leaves the
current value in place. -/
def aggiornaCampi (c : Cliente)
    (nuovoNome nuovoCognome nuovaEmail nuovoTelefono nuovoIndirizzo nuovaDataNascita : Str) :
    Cliente :=
  { c with
    nome := if nuovoNome = [] then c.nome else nuovoNome
    cognome := if nuovoCognome = [] then c.cognome else nuovoCognome
    email := if nuovaEmail = [] then c.email else nuovaEmail
    telefono := if nuovoTelefono = [] then c.telefono else nuovoTelefono
    indirizzo := if nuovoIndirizzo = [] then c.indirizzo else nuovoIndirizzo
    dataNascita := if nuovaDataNascita = [] then c.dataNascita else nuovaDataNascita }

/-- The data-layer core of `CRM::modificaCliente` (crm.cpp, lines
66-96): look up the customer by tax code (`none` when absent) and
overwrite exactly the non-empty supplied fields. -/
def modificaCliente (clienti : List Cliente)
    (codiceFiscale nuovoNome nuovoCognome nuovaEmail nuovoTelefono nuovoIndirizzo
      nuovaDataNascita : Str) : Option (List Cliente) :=
  modificaPrimo codiceFiscale
    (fun c => aggiornaCampi c nuovoNome nuovoCognome nuovaEmail nuovoTelefono
      nuovoIndirizzo nuovaDataNascita) clienti

/-- The data-layer core of `CRM::eliminaCliente` (crm.cpp, lines
99-117, the confirmed branch): erase the first customer with the given
tax code together with all its owned interactions. -/
def eliminaCliente (cf : Str) : List Cliente → Option (List Cliente)
  | [] => none
  | c :: resto =>
    if c.codiceFiscale = cf then some resto
    else (eliminaCliente cf resto).map (c :: ·)

/-- The data-layer core of `CRM::aggiungiInterazione` (crm.cpp, lines
145-177): look up the customer by tax code, then `push_back` the
interaction onto that customer's list. -/
def aggiungiInterazioneCRM (clienti : List Cliente) (cf : Str) (itz : Interazione) :
    Option (List Cliente) :=
  modificaPrimo cf (fun c => c.aggiungiInterazione itz) clienti

/-- Modelled from the spec: `CRM::eliminaInterazione` is declared in
`include/crm.h` (line 35) but the repository contains no definition of
it.  Per the spec, `removeInteraction(code, position)` fails with
NotFound when the customer is missing or the position is outside the
valid range of that customer's interaction list, and otherwise removes
the interaction at that position.  The in-range removal itself is the
repository's `Cliente::rimuoviInterazione`. -/
def eliminaInterazione (cf : Str) (posizione : Int) : List Cliente → Option (List Cliente)
  | [] => none
  | c :: resto =>
    if c.codiceFiscale = cf then
      if 0 ≤ posizione ∧ posizione < (c.interazioni.length : Int) then
        some (c.rimuoviInterazione posizione :: resto)
      else none
    else (eliminaInterazione cf posizione resto).map (c :: ·)

/-! ### Codec and persistence (`crm.cpp`, lines 222-302) -/

/-- The customer line written by `CRM::salvaDati` (crm.cpp, line 231):
the seven fields joined by `|`, no trailing separator. -/
def encodeCliente (c : Cliente) : Str :=
  c.nome ++ [sep] ++ c.cognome ++ [sep] ++ c.email ++ [sep] ++ c.telefono ++ [sep] ++
    c.indirizzo ++ [sep] ++ c.codiceFiscale ++ [sep] ++ c.dataNascita

/-- The interaction line written by `CRM::salvaDati` (crm.cpp, line
235): the owning customer's tax code followed by the six interaction
fields (the kind as its display string), joined by `|`. -/
def encodeInterazione (cf : Str) (i : Interazione) : Str :=
  cf ++ [sep] ++ i.data ++ [sep] ++ i.ora ++ [sep] ++ i.getTipoStringa ++ [sep] ++
    i.descrizione ++ [sep] ++ i.agente ++ [sep] ++ i.risultato

/-- File contents produced by a loop that writes one line per record,
each terminated by a newline. -/
def unisciLinee (linee : List Str) : Str :=
  linee.foldr (fun l acc => l ++ nl :: acc) []

/-- Contents written to the customer file by `CRM::salvaDati` (crm.cpp,
lines 229-237): one encoded line per customer, in store order. -/
def salvaClientiContent (clienti : List Cliente) : Str :=
  unisciLinee (clienti.map encodeCliente)

/-- Contents written to the interaction file by `CRM::salvaDati`: for
each customer in store order, one encoded line per owned interaction in
list order. -/
def salvaInterazioniContent (clienti : List Cliente) : Str :=
  unisciLinee (clienti.flatMap (fun c => c.interazioni.map (encodeInterazione c.codiceFiscale)))

/-- `CRM::salvaDati` (crm.cpp, lines 222-239): both destinations must
open (`okClienti`, `okInterazioni`); on failure nothing is produced, on
success the two file contents are. -/
def salvaDati (clienti : List Cliente) (okClienti okInterazioni : Bool) :
    Option (Str × Str) :=
  if okClienti && okInterazioni then
    some (salvaClientiContent clienti, salvaInterazioniContent clienti)
  else none

/-- The character-by-character field-splitting loop of `CRM::caricaDati`
(crm.cpp, lines 254-264 and 273-283): `dati` accumulates completed
fields, `campo` the field being built; on `|` the current field is
pushed and reset, and the final `campo` is always pushed at the end. -/
def splitLoop : Str → List Str → Str → List Str
  | [], dati, campo => dati ++ [campo]
  | ch :: resto, dati, campo =>
    if ch = sep then splitLoop resto (dati ++ [campo]) []
    else splitLoop resto dati (campo ++ [ch])

/-- The field list obtained from one line by the loop above. -/
def splitCampi (linea : Str) : List Str := splitLoop linea [] []

/-- Splitting a character list at every occurrence of a separator, in
the usual structural presentation (the spec's "splits on the
separator").  `splitCampi` is proved equal to `splitSep sep`. -/
def splitSep (c : Char) : Str → List Str
  | [] => [[]]
  | ch :: resto =>
    if ch = c then [] :: splitSep c resto
    else (splitSep c resto).modifyHead (fun campo => ch :: campo)

/-- The sequence of lines produced by repeated `std::getline`: the
pieces between newlines, except that no final empty piece is produced
after a trailing newline (or from empty contents). -/
def leggiLinee (content : Str) : List Str :=
  let pezzi := splitSep nl content
  if pezzi.getLast? = some [] then pezzi.dropLast else pezzi

/-- Decoding of one customer line inside `CRM::caricaDati` (crm.cpp,
lines 265-268): a customer is built exactly when the split yields seven
fields, with an empty interaction list. -/
def decodeClienteLinea (linea : Str) : Option Cliente :=
  let dati := splitCampi linea
  if dati.length = 7 then
    some ⟨dati.getD 0 [], dati.getD 1 [], dati.getD 2 [], dati.getD 3 [],
      dati.getD 4 [], dati.getD 5 [], dati.getD 6 [], []⟩
  else none

/-- The kind-decoding if-chain of `CRM::caricaDati` (crm.cpp, lines
286-291): case-sensitive comparison against the five display strings,
with `ALTRO` both the explicit match for `"Altro"` and the silent
default for anything else. -/
def decodeTipo (s : Str) : TipoInterazione :=
  if s = strAppuntamento then .APPUNTAMENTO
  else if s = strContratto then .CONTRATTO
  else if s = strTelefonata then .TELEFONATA
  else if s = strEmail then .EMAIL
  else if s = strAltro then .ALTRO
  else .ALTRO

/-- Decoding of one interaction line inside `CRM::caricaDati` (crm.cpp,
lines 284-292): seven fields required; the leading field is the foreign
tax code. -/
def decodeInterazioneLinea (linea : Str) : Option (Str × Interazione) :=
  let dati := splitCampi linea
  if dati.length = 7 then
    some (dati.getD 0 [],
      ⟨dati.getD 1 [], dati.getD 2 [], decodeTipo (dati.getD 3 []),
        dati.getD 4 [], dati.getD 5 [], dati.getD 6 []⟩)
  else none

/-- The customer-file reading loop of `CRM::caricaDati` (crm.cpp, lines
252-269): blank lines are skipped, decoded customers are appended in
file order, other lines are ignored. -/
def caricaClientiLinee (linee : List Str) : List Cliente :=
  linee.foldl
    (fun clienti linea =>
      if linea = [] then clienti
      else
        match decodeClienteLinea linea with
        | some c => clienti ++ [c]
        | none => clienti)
    []

/-- Customers loaded from the customer file contents. -/
def caricaClienti (content : Str) : List Cliente :=
  caricaClientiLinee (leggiLinee content)

/-- The linear scan of `CRM::caricaDati` (crm.cpp, lines 293-298) that
appends a decoded interaction to the first customer whose tax code
matches and stops (`break`); no match leaves the store unchanged. -/
def attach1 (cf : Str) (itz : Interazione) : List Cliente → List Cliente
  | [] => []
  | c :: resto =>
    if c.codiceFiscale = cf then c.aggiungiInterazione itz :: resto
    else c :: attach1 cf itz resto

/-- The interaction-file reading loop of `CRM::caricaDati` (crm.cpp,
lines 271-300). -/
def caricaInterazioniLinee (clienti : List Cliente) (linee : List Str) : List Cliente :=
  linee.foldl
    (fun clienti linea =>
      if linea = [] then clienti
      else
        match decodeInterazioneLinea linea with
        | some (cf, itz) => attach1 cf itz clienti
        | none => clienti)
    clienti

/-- Interactions loaded from the interaction file contents into an
already loaded customer list. -/
def caricaInterazioni (clienti : List Cliente) (content : Str) : List Cliente :=
  caricaInterazioniLinee clienti (leggiLinee content)

/-- `CRM::caricaDati` (crm.cpp, lines 242-302): if either source cannot
be opened the method returns `false` before touching the store; only
with both files open is the store cleared and reloaded. -/
def caricaDati (clienti : List Cliente) (fileClienti fileInterazioni : Option Str) :
    Bool × List Cliente :=
  match fileClienti, fileInterazioni with
  | some contentClienti, some contentInterazioni =>
    (true, caricaInterazioni (caricaClienti contentClienti) contentInterazioni)
  | _, _ => (false, clienti)

/-! ### Query engine (`crm.cpp`, lines 120-142) -/

/-- The search loop of `CRM::cercaCliente`: every customer whose
`contieneStringa` is true, paired with its position, in store order. -/
def cercaClienteAux (ricerca : Str) : List Cliente → Nat → List (Nat × Cliente)
  | [], _ => []
  | c :: resto, i =>
    if c.contieneStringa ricerca then (i, c) :: cercaClienteAux ricerca resto (i + 1)
    else cercaClienteAux ricerca resto (i + 1)

/-- The data-layer result of `CRM::cercaCliente` (crm.cpp, lines
120-142). -/
def cercaCliente (clienti : List Cliente) (ricerca : Str) : List (Nat × Cliente) :=
  cercaClienteAux ricerca clienti 0

/-! ### Derived notions used to state the claims -/

/-- The customers decoded from a list of raw lines (skipping blank and
malformed ones), the per-line view of the customer reading loop. -/
def clientiDaLinee (linee : List Str) : List Cliente :=
  linee.filterMap (fun l => if l = [] then none else decodeClienteLinea l)

/-- The `(taxCode, interaction)` pairs decoded from a list of raw lines
(skipping blank and malformed ones), the per-line view of the
interaction reading loop. -/
def coppieDaLinee (linee : List Str) : List (Str × Interazione)  :=
  linee.filterMap (fun l => if l = [] then none else decodeInterazioneLinea l)

/-- Distributing a list of decoded `(taxCode, interaction)` pairs over
a customer list, one `attach1` per pair in file order. -/
def loadPairs (coppie : List (Str × Interazione)) (st : List Cliente) : List Cliente :=
  coppie.foldl (fun st p => attach1 p.1 p.2 st) st

/-- Position `i` holds the first customer carrying its tax code: no
earlier position has an equal code. -/
def primaOcc (st : List Cliente) (i : Nat) : Prop :=
  ∀ j < i, (st.getD j clienteVuoto).codiceFiscale ≠ (st.getD i clienteVuoto).codiceFiscale

instance (st : List Cliente) (i : Nat) : Decidable (primaOcc st i) :=
  inferInstanceAs (Decidable (∀ j < i, _ ≠ _))

/-- No two customers of the store carry the same tax code (the Store
uniqueness invariant of the spec). -/
def codiciDistinti (st : List Cliente) : Prop :=
  st.Pairwise (fun a b => a.codiceFiscale ≠ b.codiceFiscale)

instance (st : List Cliente) : Decidable (codiciDistinti st) :=
  inferInstanceAs (Decidable (List.Pairwise _ st))

/-- A field value that survives the escaping-free codec: it contains
neither the field separator nor a newline. -/
def campoPulito (s : Str) : Prop := sep ∉ s ∧ nl ∉ s

instance (s : Str) : Decidable (campoPulito s) :=
  inferInstanceAs (Decidable (_ ∧ _))

/-- All six string fields of an interaction are codec-safe. -/
def interazionePulita (i : Interazione) : Prop :=
  campoPulito i.data ∧ campoPulito i.ora ∧ campoPulito i.descrizione ∧
    campoPulito i.agente ∧ campoPulito i.risultato

instance (i : Interazione) : Decidable (interazionePulita i) :=
  inferInstanceAs (Decidable (_ ∧ _))

/-- All seven string fields of a customer and all fields of its owned
interactions are codec-safe. -/
def clientePulito (c : Cliente) : Prop :=
  campoPulito c.nome ∧ campoPulito c.cognome ∧ campoPulito c.email ∧
    campoPulito c.telefono ∧ campoPulito c.indirizzo ∧ campoPulito c.codiceFiscale ∧
    campoPulito c.dataNascita ∧ ∀ i ∈ c.interazioni, interazionePulita i

instance (c : Cliente) : Decidable (clientePulito c) :=
  inferInstanceAs (Decidable (_ ∧ _))

/-- A customer with its interaction list emptied: what the customer
codec reconstructs before interactions are re-attached. -/
def resetInterazioni (c : Cliente) : Cliente :=
  { c with interazioni := [] }

/-! ### The operations of the Store as a trace alphabet -/

/-- One call of the excluded menu layer into the Store: the mutating
operations of `CRM`.  A failing operation leaves the store unchanged,
exactly as the early-return paths of the C++ do. -/
inductive Op where
  | add (nome cognome email telefono indirizzo codiceFiscale dataNascita : Str)
  | update (codiceFiscale nuovoNome nuovoCognome nuovaEmail nuovoTelefono nuovoIndirizzo
      nuovaDataNascita : Str)
  | remove (codiceFiscale : Str)
  | addInter (codiceFiscale : Str) (itz : Interazione)
  | removeInter (codiceFiscale : Str) (posizione : Int)
  | salva (okClienti okInterazioni : Bool)
  | carica (fileClienti fileInterazioni : Option Str)

/-- Execute one operation on the in-memory store. `salvaDati` never
modifies the collection; `caricaDati` replaces it when both files
open. -/
def esegui (st : List Cliente) : Op → List Cliente
  | .add n co e t ind cf d => (aggiungiCliente st n co e t ind cf d).getD st
  | .update cf n co e t ind d => (modificaCliente st cf n co e t ind d).getD st
  | .remove cf => (eliminaCliente cf st).getD st
  | .addInter cf itz => (aggiungiInterazioneCRM st cf itz).getD st
  | .removeInter cf pos => (eliminaInterazione cf pos st).getD st
  | .salva _ _ => st
  | .carica fc fi => (caricaDati st fc fi).2

/-- Execute a whole sequence of operations starting from the empty
store (the state in which `main` constructs the `CRM`). -/
def eseguiTutte (ops : List Op) : List Cliente :=
  ops.foldl esegui []

/-- A load in the trace only reads customer files whose decoded
customers carry pairwise-distinct tax codes (e.g. files produced by
`salvaDati` from a store with distinct codes); other operations are
unrestricted. -/
def caricaSicura : Op → Prop
  | .carica (some contentClienti) (some _) => codiciDistinti (caricaClienti contentClienti)
  | _ => True

instance (op : Op) : Decidable (caricaSicura op) := by
  unfold caricaSicura
  cases op with
  | carica fc fi =>
    cases fc with
    | none => exact inferInstanceAs (Decidable True)
    | some c =>
      cases fi with
      | none => exact inferInstanceAs (Decidable True)
      | some i => exact inferInstanceAs (Decidable (codiciDistinti _))
  | add n co e t ind cf d => exact inferInstanceAs (Decidable True)
  | update cf n co e t ind d => exact inferInstanceAs (Decidable True)
  | remove cf => exact inferInstanceAs (Decidable True)
  | addInter cf itz => exact inferInstanceAs (Decidable True)
  | removeInter cf pos => exact inferInstanceAs (Decidable True)
  | salva a b => exact inferInstanceAs (Decidable True)

/-- A customer whose first name is `"Mario"` and whose other fields are
empty, the instance named by the search property of the spec. -/
def clienteMario : Cliente :=
  ⟨['M', 'a', 'r', 'i', 'o'], [], [], [], [], [], [], []⟩

/-! ### Lemmas: the splitting loop agrees with structural splitting -/

lemma modifyHead_exch (f g : Str → Str) (h : ∀ x, f x = g x) (l : List Str) :
    l.modifyHead f = l.modifyHead g := by
  cases l <;> simp [h]

lemma splitSep_ne_nil (c : Char) (l : Str) : splitSep c l ≠ [] := by
  induction l with
  | nil => simp [splitSep]
  | cons ch resto ih =>
    simp only [splitSep]
    split
    · simp
    · cases h : splitSep c resto with
      | nil => exact absurd h ih
      | cons a as => simp

lemma splitLoop_eq (resto : Str) : ∀ (dati : List Str) (campo : Str),
    splitLoop resto dati campo =
      dati ++ (splitSep sep resto).modifyHead (fun x => campo ++ x) := by
  induction resto with
  | nil =>
    intro dati campo
    simp [splitLoop, splitSep]
  | cons ch r ih =>
    intro dati campo
    by_cases h : ch = sep
    · rw [show splitLoop (ch :: r) dati campo = splitLoop r (dati ++ [campo]) [] by
        simp [splitLoop, h]]
      rw [ih, show splitSep sep (ch :: r) = [] :: splitSep sep r by simp [splitSep, h]]
      rw [modifyHead_exch (fun x => [] ++ x) id (by simp)]
      cases hs : splitSep sep r with
      | nil => exact absurd hs (splitSep_ne_nil sep r)
      | cons a as => simp
    · rw [show splitLoop (ch :: r) dati campo = splitLoop r dati (campo ++ [ch]) by
        simp [splitLoop, h]]
      rw [ih, show splitSep sep (ch :: r) = (splitSep sep r).modifyHead (fun x => ch :: x) by
        simp [splitSep, h]]
      rw [List.modifyHead_modifyHead]
      rw [modifyHead_exch (fun x => campo ++ [ch] ++ x)
        ((fun x => campo ++ x) ∘ fun x => ch :: x) (by intro x; simp)]

lemma splitCampi_eq_splitSep (linea : Str) : splitCampi linea = splitSep sep linea := by
  rw [splitCampi, splitLoop_eq, modifyHead_exch (fun x => [] ++ x) id (by simp)]
  cases hs : splitSep sep linea with
  | nil => exact absurd hs (splitSep_ne_nil sep linea)
  | cons a as => simp

lemma splitSep_of_not_mem {c : Char} {l : Str} (h : c ∉ l) : splitSep c l = [l] := by
  induction l with
  | nil => rfl
  | cons ch r ih =>
    simp only [List.mem_cons, not_or] at h
    have hne : ¬ ch = c := fun hx => h.1 hx.symm
    rw [show splitSep c (ch :: r) = (splitSep c r).modifyHead (fun x => ch :: x) by
      simp [splitSep, hne]]
    rw [ih h.2]
    rfl

lemma splitSep_append_cons {c : Char} {l : Str} (h : c ∉ l) (r : Str) :
    splitSep c (l ++ c :: r) = l :: splitSep c r := by
  induction l with
  | nil => simp [splitSep]
  | cons ch t ih =>
    simp only [List.mem_cons, not_or] at h
    have hne : ¬ ch = c := fun hx => h.1 hx.symm
    rw [List.cons_append,
      show splitSep c (ch :: (t ++ c :: r)) =
        (splitSep c (t ++ c :: r)).modifyHead (fun x => ch :: x) by
          simp [splitSep, hne]]
    rw [ih h.2]
    rfl

lemma unisciLinee_cons (l : Str) (ls : List Str) :
    unisciLinee (l :: ls) = l ++ nl :: unisciLinee ls := rfl

lemma splitSep_unisciLinee {linee : List Str} (h : ∀ l ∈ linee, nl ∉ l) :
    splitSep nl (unisciLinee linee) = linee ++ [[]] := by
  induction linee with
  | nil => rfl
  | cons l ls ih =>
    rw [unisciLinee_cons, splitSep_append_cons (h l (by simp)),
      ih (fun x hx => h x (by simp [hx]))]
    rfl

/-- On contents produced by writing newline-terminated lines (none of
which contains a newline), `getline` recovers exactly those lines. -/
lemma leggiLinee_unisciLinee {linee : List Str} (h : ∀ l ∈ linee, nl ∉ l) :
    leggiLinee (unisciLinee linee) = linee := by
  rw [leggiLinee, splitSep_unisciLinee h]
  simp

/-! ### Lemmas: `trovaCliente`, `modificaPrimo`, `eliminaCliente` -/

lemma trovaCliente_eq_none_iff (clienti : List Cliente) (cf : Str) :
    trovaCliente clienti cf = none ↔ ∀ c ∈ clienti, c.codiceFiscale ≠ cf := by
  induction clienti with
  | nil => simp [trovaCliente]
  | cons c resto ih =>
    by_cases h : c.codiceFiscale = cf
    · simp [trovaCliente, h]
    · simp [trovaCliente, h, ih]

lemma trovaCliente_lt {clienti : List Cliente} {cf : Str} {i : Nat}
    (h : trovaCliente clienti cf = some i) : i < clienti.length := by
  induction clienti generalizing i with
  | nil => simp [trovaCliente] at h
  | cons c resto ih =>
    by_cases hc : c.codiceFiscale = cf
    · simp [trovaCliente, hc] at h
      simp only [List.length_cons]
      omega
    · simp only [trovaCliente, if_neg hc, Option.map_eq_some'] at h
      obtain ⟨j, hj, rfl⟩ := h
      have := ih hj
      simp only [List.length_cons]
      omega

lemma trovaCliente_codice {clienti : List Cliente} {cf : Str} {i : Nat}
    (h : trovaCliente clienti cf = some i) :
    (clienti.getD i clienteVuoto).codiceFiscale = cf := by
  induction clienti generalizing i with
  | nil => simp [trovaCliente] at h
  | cons c resto ih =>
    by_cases hc : c.codiceFiscale = cf
    · simp [trovaCliente, hc] at h
      subst h
      simpa using hc
    · simp only [trovaCliente, if_neg hc, Option.map_eq_some'] at h
      obtain ⟨j, hj, rfl⟩ := h
      simpa using ih hj

lemma trovaCliente_primo {clienti : List Cliente} {cf : Str} {i : Nat}
    (h : trovaCliente clienti cf = some i) :
    ∀ j < i, (clienti.getD j clienteVuoto).codiceFiscale ≠ cf := by
  induction clienti generalizing i with
  | nil => simp [trovaCliente] at h
  | cons c resto ih =>
    by_cases hc : c.codiceFiscale = cf
    · simp [trovaCliente, hc] at h
      omega
    · simp only [trovaCliente, if_neg hc, Option.map_eq_some'] at h
      obtain ⟨k, hk, rfl⟩ := h
      intro j hj
      cases j with
      | zero => simpa using hc
      | succ j2 =>
        simp only [List.getD_cons_succ]
        exact ih hk j2 (by omega)

lemma trovaCliente_of_primo {clienti : List Cliente} {cf : Str} {i : Nat}
    (hlen : i < clienti.length)
    (hcode : (clienti.getD i clienteVuoto).codiceFiscale = cf)
    (hfirst : ∀ j < i, (clienti.getD j clienteVuoto).codiceFiscale ≠ cf) :
    trovaCliente clienti cf = some i := by
  induction clienti generalizing i with
  | nil => simp at hlen
  | cons c resto ih =>
    cases i with
    | zero =>
      simp only [List.getD_cons_zero] at hcode
      simp [trovaCliente, hcode]
    | succ i2 =>
      have hc : c.codiceFiscale ≠ cf := by
        have := hfirst 0 (by omega)
        simpa using this
      simp only [trovaCliente, if_neg hc]
      rw [ih (by simpa using Nat.lt_of_succ_lt_succ (by simpa using hlen))
        (by simpa using hcode)
        (fun j hj => by simpa using hfirst (j + 1) (by omega))]
      rfl

lemma modificaPrimo_eq_none_iff (cf : Str) (f : Cliente → Cliente) (clienti : List Cliente) :
    modificaPrimo cf f clienti = none ↔ trovaCliente clienti cf = none := by
  induction clienti with
  | nil => simp [modificaPrimo, trovaCliente]
  | cons c resto ih =>
    by_cases h : c.codiceFiscale = cf
    · simp [modificaPrimo, trovaCliente, h]
    · simp [modificaPrimo, trovaCliente, h, ih]

lemma modificaPrimo_eq_set {cf : Str} {clienti : List Cliente} {i : Nat}
    (f : Cliente → Cliente) (h : trovaCliente clienti cf = some i) :
    modificaPrimo cf f clienti = some (clienti.set i (f (clienti.getD i clienteVuoto))) := by
  induction clienti generalizing i with
  | nil => simp [trovaCliente] at h
  | cons c resto ih =>
    by_cases hc : c.codiceFiscale = cf
    · simp [trovaCliente, hc] at h
      subst h
      simp [modificaPrimo, hc]
    · simp only [trovaCliente, if_neg hc, Option.map_eq_some'] at h
      obtain ⟨j, hj, rfl⟩ := h
      simp [modificaPrimo, hc, ih hj]

lemma eliminaCliente_sublist {cf : Str} {clienti res : List Cliente}
    (h : eliminaCliente cf clienti = some res) : res.Sublist clienti := by
  induction clienti generalizing res with
  | nil => simp [eliminaCliente] at h
  | cons c resto ih =>
    by_cases hc : c.codiceFiscale = cf
    · simp [eliminaCliente, hc] at h
      subst h
      exact List.sublist_cons_self c resto
    · simp only [eliminaCliente, if_neg hc, Option.map_eq_some'] at h
      obtain ⟨r2, hr2, rfl⟩ := h
      exact (ih hr2).cons₂ c

/-! ### Lemmas: attaching loaded interactions -/

lemma attach1_length (cf : Str) (itz : Interazione) (st : List Cliente) :
    (attach1 cf itz st).length = st.length := by
  induction st with
  | nil => rfl
  | cons c resto ih =>
    by_cases h : c.codiceFiscale = cf
    · simp [attach1, h]
    · simp [attach1, h, ih]

lemma attach1_getD (cf : Str) (itz : Interazione) (st : List Cliente) (i : Nat) :
    (attach1 cf itz st).getD i clienteVuoto =
      if trovaCliente st cf = some i then
        (st.getD i clienteVuoto).aggiungiInterazione itz
      else st.getD i clienteVuoto := by
  induction st generalizing i with
  | nil => simp [attach1, trovaCliente]
  | cons c resto ih =>
    by_cases hc : c.codiceFiscale = cf
    · cases i with
      | zero => simp [attach1, trovaCliente, hc]
      | succ i2 => simp [attach1, trovaCliente, hc]
    · cases i with
      | zero =>
        have hz : ¬ (trovaCliente resto cf).map (· + 1) = some 0 := by
          cases h : trovaCliente resto cf <;> simp
        simp [attach1, trovaCliente, hc, hz]
      | succ i2 =>
        have hs : (trovaCliente resto cf).map (· + 1) = some (i2 + 1) ↔
            trovaCliente resto cf = some i2 := by
          cases h : trovaCliente resto cf <;> simp
        rw [show attach1 cf itz (c :: resto) = c :: attach1 cf itz resto by
          simp [attach1, hc]]
        rw [show trovaCliente (c :: resto) cf = (trovaCliente resto cf).map (· + 1) by
          simp [trovaCliente, hc]]
        simp only [List.getD_cons_succ]
        rw [ih]
        by_cases ht : trovaCliente resto cf = some i2
        · rw [if_pos ht, if_pos (hs.mpr ht)]
        · rw [if_neg ht, if_neg (fun hx => ht (hs.mp hx))]

lemma attach1_codice (cf : Str) (itz : Interazione) (st : List Cliente) (i : Nat) :
    ((attach1 cf itz st).getD i clienteVuoto).codiceFiscale =
      (st.getD i clienteVuoto).codiceFiscale := by
  rw [attach1_getD]
  split <;> simp [Cliente.aggiungiInterazione]

lemma primaOcc_attach1 (cf : Str) (itz : Interazione) (st : List Cliente) (i : Nat) :
    primaOcc (attach1 cf itz st) i ↔ primaOcc st i := by
  unfold primaOcc
  constructor
  · intro h j hj
    have hx := h j hj
    rw [attach1_codice, attach1_codice] at hx
    exact hx
  · intro h j hj
    rw [attach1_codice, attach1_codice]
    exact h j hj

lemma loadPairs_length (coppie : List (Str × Interazione)) (st : List Cliente) :
    (loadPairs coppie st).length = st.length := by
  induction coppie generalizing st with
  | nil => rfl
  | cons p ps ih =>
    rw [show loadPairs (p :: ps) st = loadPairs ps (attach1 p.1 p.2 st) from rfl, ih,
      attach1_length]

lemma loadPairs_getD (coppie : List (Str × Interazione)) (st : List Cliente) (i : Nat)
    (h : i < st.length) :
    (loadPairs coppie st).getD i clienteVuoto =
      { st.getD i clienteVuoto with
        interazioni := (st.getD i clienteVuoto).interazioni ++
          (if primaOcc st i then
            (coppie.filter
              (fun p => p.1 = (st.getD i clienteVuoto).codiceFiscale)).map Prod.snd
          else []) } := by
  induction coppie generalizing st with
  | nil =>
    show st.getD i clienteVuoto = _
    rw [List.filter_nil]
    split <;> simp
  | cons p ps ih =>
    rw [show loadPairs (p :: ps) st = loadPairs ps (attach1 p.1 p.2 st) from rfl]
    rw [ih (attach1 p.1 p.2 st) (by rw [attach1_length]; exact h)]
    by_cases hA : trovaCliente st p.1 = some i
    · have hcode : (st.getD i clienteVuoto).codiceFiscale = p.1 := trovaCliente_codice hA
      have hpo : primaOcc st i := by
        intro j hj
        rw [hcode]
        exact trovaCliente_primo hA j hj
      have hpo2 : primaOcc (attach1 p.1 p.2 st) i := (primaOcc_attach1 _ _ _ _).mpr hpo
      rw [attach1_codice, attach1_getD, if_pos hA, if_pos hpo2, if_pos hpo]
      simp only [hcode]
      rw [List.filter_cons]
      simp only [Cliente.aggiungiInterazione]
      simp [List.append_assoc]
      simpa using hcode
    · rw [attach1_codice, attach1_getD, if_neg hA]
      by_cases hpo : primaOcc st i
      · have hp1 : ¬ p.1 = (st.getD i clienteVuoto).codiceFiscale := by
          intro he
          exact hA (trovaCliente_of_primo h (by rw [he]) (fun j hj => by
            rw [he]; exact hpo j hj))
        rw [if_pos ((primaOcc_attach1 _ _ _ _).mpr hpo), if_pos hpo]
        rw [List.filter_cons, if_neg (by simpa using hp1)]
      · rw [if_neg (fun hx => hpo ((primaOcc_attach1 _ _ _ _).mp hx)),
          if_neg hpo]

/-! ### Lemmas: the reading loops as per-line maps -/

lemma caricaClientiLinee_eq (linee : List Str) :
    caricaClientiLinee linee = clientiDaLinee linee := by
  have h : ∀ (acc : List Cliente),
      linee.foldl
        (fun clienti linea =>
          if linea = [] then clienti
          else
            match decodeClienteLinea linea with
            | some c => clienti ++ [c]
            | none => clienti)
        acc = acc ++ clientiDaLinee linee := by
    induction linee with
    | nil =>
      intro acc
      simp [clientiDaLinee]
    | cons l ls ih =>
      intro acc
      by_cases hl : l = []
      · simp [hl, clientiDaLinee, List.filterMap_cons, ih]
      · cases hd : decodeClienteLinea l with
        | some c =>
          simp only [List.foldl_cons, if_neg hl, hd]
          rw [ih]
          simp [clientiDaLinee, List.filterMap_cons, hl, hd]
        | none =>
          simp only [List.foldl_cons, if_neg hl, hd]
          rw [ih]
          simp [clientiDaLinee, List.filterMap_cons, hl, hd]
  simpa [caricaClientiLinee] using h []

lemma caricaInterazioniLinee_eq (st : List Cliente) (linee : List Str) :
    caricaInterazioniLinee st linee = loadPairs (coppieDaLinee linee) st := by
  induction linee generalizing st with
  | nil => rfl
  | cons l ls ih =>
    by_cases hl : l = []
    · rw [show caricaInterazioniLinee st (l :: ls) = caricaInterazioniLinee st ls by
        simp [caricaInterazioniLinee, hl]]
      rw [ih, show coppieDaLinee (l :: ls) = coppieDaLinee ls by
        simp [coppieDaLinee, List.filterMap_cons, hl]]
    · cases hd : decodeInterazioneLinea l with
      | some p =>
        rw [show caricaInterazioniLinee st (l :: ls) =
            caricaInterazioniLinee (attach1 p.1 p.2 st) ls by
          simp [caricaInterazioniLinee, hl, hd]]
        rw [ih, show coppieDaLinee (l :: ls) = p :: coppieDaLinee ls by
          simp [coppieDaLinee, List.filterMap_cons, hl, hd]]
        rfl
      | none =>
        rw [show caricaInterazioniLinee st (l :: ls) = caricaInterazioniLinee st ls by
          simp [caricaInterazioniLinee, hl, hd]]
        rw [ih, show coppieDaLinee (l :: ls) = coppieDaLinee ls by
          simp [coppieDaLinee, List.filterMap_cons, hl, hd]]

/-! ### Lemmas: the codec inverts on separator-free fields -/

lemma tipoStringa_pulita (t : TipoInterazione) : campoPulito (tipoStringa t) := by
  cases t <;> decide

lemma decodeTipo_tipoStringa (t : TipoInterazione) : decodeTipo (tipoStringa t) = t := by
  cases t <;> decide

lemma splitSep_join7 (f1 f2 f3 f4 f5 f6 f7 : Str)
    (h1 : sep ∉ f1) (h2 : sep ∉ f2) (h3 : sep ∉ f3) (h4 : sep ∉ f4)
    (h5 : sep ∉ f5) (h6 : sep ∉ f6) (h7 : sep ∉ f7) :
    splitSep sep
      (f1 ++ sep :: (f2 ++ sep :: (f3 ++ sep :: (f4 ++ sep ::
        (f5 ++ sep :: (f6 ++ sep :: f7)))))) = [f1, f2, f3, f4, f5, f6, f7] := by
  rw [splitSep_append_cons h1, splitSep_append_cons h2, splitSep_append_cons h3,
    splitSep_append_cons h4, splitSep_append_cons h5, splitSep_append_cons h6,
    splitSep_of_not_mem h7]

lemma encodeCliente_assoc (c : Cliente) :
    encodeCliente c =
      c.nome ++ sep :: (c.cognome ++ sep :: (c.email ++ sep :: (c.telefono ++ sep ::
        (c.indirizzo ++ sep :: (c.codiceFiscale ++ sep :: c.dataNascita))))) := by
  simp [encodeCliente]

lemma encodeInterazione_assoc (cf : Str) (i : Interazione) :
    encodeInterazione cf i =
      cf ++ sep :: (i.data ++ sep :: (i.ora ++ sep :: (i.getTipoStringa ++ sep ::
        (i.descrizione ++ sep :: (i.agente ++ sep :: i.risultato))))) := by
  simp [encodeInterazione]

lemma decodeClienteLinea_encode {c : Cliente} (hc : clientePulito c) :
    decodeClienteLinea (encodeCliente c) = some (resetInterazioni c) := by
  obtain ⟨h1, h2, h3, h4, h5, h6, h7, -⟩ := hc
  rw [decodeClienteLinea, encodeCliente_assoc, splitCampi_eq_splitSep,
    splitSep_join7 _ _ _ _ _ _ _ h1.1 h2.1 h3.1 h4.1 h5.1 h6.1 h7.1]
  rfl

lemma decodeInterazioneLinea_encode {cf : Str} {i : Interazione}
    (hcf : campoPulito cf) (hi : interazionePulita i) :
    decodeInterazioneLinea (encodeInterazione cf i) = some (cf, i) := by
  obtain ⟨h1, h2, h3, h4, h5⟩ := hi
  rw [decodeInterazioneLinea, encodeInterazione_assoc, splitCampi_eq_splitSep]
  simp only [Interazione.getTipoStringa]
  rw [splitSep_join7 _ _ _ _ _ _ _ hcf.1 h1.1 h2.1 (tipoStringa_pulita i.tipo).1
    h3.1 h4.1 h5.1]
  simp [decodeTipo_tipoStringa]

lemma encodeCliente_ne_nil (c : Cliente) : encodeCliente c ≠ [] := by
  rw [encodeCliente_assoc]
  simp

lemma encodeInterazione_ne_nil (cf : Str) (i : Interazione) :
    encodeInterazione cf i ≠ [] := by
  rw [encodeInterazione_assoc]
  simp

lemma nl_ne_sep : nl ≠ sep := by decide

lemma nl_not_mem_encodeCliente {c : Cliente} (hc : clientePulito c) :
    nl ∉ encodeCliente c := by
  obtain ⟨h1, h2, h3, h4, h5, h6, h7, -⟩ := hc
  rw [encodeCliente_assoc]
  intro hm
  simp only [List.mem_append, List.mem_cons] at hm
  rcases hm with h | h | h
  · exact h1.2 h
  · exact nl_ne_sep h
  rcases h with h | h | h
  · exact h2.2 h
  · exact nl_ne_sep h
  rcases h with h | h | h
  · exact h3.2 h
  · exact nl_ne_sep h
  rcases h with h | h | h
  · exact h4.2 h
  · exact nl_ne_sep h
  rcases h with h | h | h
  · exact h5.2 h
  · exact nl_ne_sep h
  rcases h with h | h | h
  · exact h6.2 h
  · exact nl_ne_sep h
  exact h7.2 h

lemma nl_not_mem_encodeInterazione {cf : Str} {i : Interazione}
    (hcf : campoPulito cf) (hi : interazionePulita i) :
    nl ∉ encodeInterazione cf i := by
  obtain ⟨h1, h2, h3, h4, h5⟩ := hi
  rw [encodeInterazione_assoc]
  intro hm
  simp only [List.mem_append, List.mem_cons] at hm
  rcases hm with h | h | h
  · exact hcf.2 h
  · exact nl_ne_sep h
  rcases h with h | h | h
  · exact h1.2 h
  · exact nl_ne_sep h
  rcases h with h | h | h
  · exact h2.2 h
  · exact nl_ne_sep h
  rcases h with h | h | h
  · exact (tipoStringa_pulita i.tipo).2 h
  · exact nl_ne_sep h
  rcases h with h | h | h
  · exact h3.2 h
  · exact nl_ne_sep h
  rcases h with h | h | h
  · exact h4.2 h
  · exact nl_ne_sep h
  exact h5.2 h

lemma clientiDaLinee_encode {st : List Cliente} (h : ∀ c ∈ st, clientePulito c) :
    clientiDaLinee (st.map encodeCliente) = st.map resetInterazioni := by
  induction st with
  | nil => rfl
  | cons c resto ih =>
    have hc := h c (by simp)
    rw [List.map_cons,
      show clientiDaLinee (encodeCliente c :: resto.map encodeCliente) =
        (if encodeCliente c = [] then none else decodeClienteLinea (encodeCliente c)).toList ++
          clientiDaLinee (resto.map encodeCliente) by
        simp [clientiDaLinee, List.filterMap_cons]
        split <;> simp_all]
    rw [if_neg (encodeCliente_ne_nil c), decodeClienteLinea_encode hc,
      ih (fun x hx => h x (by simp [hx]))]
    rfl

lemma coppieDaLinee_append (a b : List Str) :
    coppieDaLinee (a ++ b) = coppieDaLinee a ++ coppieDaLinee b := by
  simp [coppieDaLinee, List.filterMap_append]

lemma coppieDaLinee_blocco {cf : Str} (hcf : campoPulito cf)
    {itz : List Interazione} (h : ∀ i ∈ itz, interazionePulita i) :
    coppieDaLinee (itz.map (encodeInterazione cf)) = itz.map (fun i => (cf, i)) := by
  induction itz with
  | nil => rfl
  | cons i resto ih =>
    rw [List.map_cons,
      show coppieDaLinee (encodeInterazione cf i :: resto.map (encodeInterazione cf)) =
        (if encodeInterazione cf i = [] then none
          else decodeInterazioneLinea (encodeInterazione cf i)).toList ++
          coppieDaLinee (resto.map (encodeInterazione cf)) by
        simp [coppieDaLinee, List.filterMap_cons]
        split <;> simp_all]
    rw [if_neg (encodeInterazione_ne_nil cf i),
      decodeInterazioneLinea_encode hcf (h i (by simp)),
      ih (fun x hx => h x (by simp [hx]))]
    rfl

lemma coppieDaLinee_salva {st : List Cliente} (h : ∀ c ∈ st, clientePulito c) :
    coppieDaLinee (st.flatMap (fun c => c.interazioni.map (encodeInterazione c.codiceFiscale))) =
      st.flatMap (fun c => c.interazioni.map (fun i => (c.codiceFiscale, i))) := by
  induction st with
  | nil => rfl
  | cons c resto ih =>
    have hc := h c (by simp)
    rw [List.flatMap_cons, coppieDaLinee_append,
      coppieDaLinee_blocco hc.2.2.2.2.2.1 hc.2.2.2.2.2.2.2,
      ih (fun x hx => h x (by simp [hx])), List.flatMap_cons]

/-! ### Lemmas: distinct codes and the round trip -/

lemma getD_mem {st : List Cliente} {i : Nat} (h : i < st.length) :
    st.getD i clienteVuoto ∈ st := by
  rw [List.getD_eq_getElem st clienteVuoto h]
  exact List.getElem_mem h

lemma codiciDistinti_primaOcc {st : List Cliente} (hdist : codiciDistinti st)
    {i : Nat} (h : i < st.length) : primaOcc st i := by
  intro j hj
  have hj2 : j < st.length := lt_trans hj h
  rw [List.getD_eq_getElem st clienteVuoto hj2, List.getD_eq_getElem st clienteVuoto h]
  exact List.pairwise_iff_getElem.mp hdist j i hj2 h hj

lemma codiciDistinti_map_reset {st : List Cliente} (h : codiciDistinti st) :
    codiciDistinti (st.map resetInterazioni) := by
  unfold codiciDistinti
  rw [List.pairwise_map]
  exact h

lemma filter_coppie_blocco (cf : Str) (itz : List Interazione) :
    (itz.map (fun i => (cf, i))).filter (fun p => p.1 = cf) =
      itz.map (fun i => (cf, i)) := by
  rw [List.filter_eq_self]
  intro p hp
  obtain ⟨i, hi, rfl⟩ := List.mem_map.mp hp
  simp

lemma filter_coppie_nil {cf : Str} {st : List Cliente}
    (h : ∀ c ∈ st, c.codiceFiscale ≠ cf) :
    (st.flatMap (fun c => c.interazioni.map (fun i => (c.codiceFiscale, i)))).filter
      (fun p => p.1 = cf) = [] := by
  rw [List.filter_eq_nil_iff]
  intro p hp
  obtain ⟨c, hc, hm⟩ := List.mem_flatMap.mp hp
  obtain ⟨i, hi, rfl⟩ := List.mem_map.mp hm
  simpa using h c hc

lemma filter_blocco_nil {cf target : Str} (hne : cf ≠ target) (itz : List Interazione) :
    (itz.map (fun i => (cf, i))).filter (fun p => p.1 = target) = [] := by
  rw [List.filter_eq_nil_iff]
  intro p hp
  obtain ⟨i, hi, rfl⟩ := List.mem_map.mp hp
  simpa using hne

lemma filter_coppie_distinti :
    ∀ (st : List Cliente), codiciDistinti st → ∀ (i : Nat), i < st.length →
    (st.flatMap (fun c => c.interazioni.map (fun itz => (c.codiceFiscale, itz)))).filter
        (fun p => p.1 = (st.getD i clienteVuoto).codiceFiscale) =
      (st.getD i clienteVuoto).interazioni.map
        (fun itz => ((st.getD i clienteVuoto).codiceFiscale, itz)) := by
  intro st
  induction st with
  | nil =>
    intro _ i h
    simp at h
  | cons c resto ih =>
    intro hdist i h
    have hdc := List.pairwise_cons.mp hdist
    cases i with
    | zero =>
      simp only [List.getD_cons_zero, List.flatMap_cons, List.filter_append]
      rw [filter_coppie_blocco,
        filter_coppie_nil (fun x hx => fun he => hdc.1 x hx he.symm),
        List.append_nil]
    | succ i2 =>
      have h2 : i2 < resto.length := by
        simp only [List.length_cons] at h
        omega
      simp only [List.getD_cons_succ, List.flatMap_cons, List.filter_append]
      rw [filter_blocco_nil (hdc.1 _ (getD_mem h2)) c.interazioni,
        List.nil_append, ih hdc.2 i2 h2]

lemma caricaClienti_salva {st : List Cliente} (h : ∀ c ∈ st, clientePulito c) :
    caricaClienti (salvaClientiContent st) = st.map resetInterazioni := by
  rw [caricaClienti, salvaClientiContent,
    leggiLinee_unisciLinee (by
      intro l hl
      obtain ⟨c, hc, rfl⟩ := List.mem_map.mp hl
      exact nl_not_mem_encodeCliente (h c hc)),
    caricaClientiLinee_eq, clientiDaLinee_encode h]

lemma caricaInterazioni_salva {st : List Cliente} (h : ∀ c ∈ st, clientePulito c)
    (base : List Cliente) :
    caricaInterazioni base (salvaInterazioniContent st) =
      loadPairs (st.flatMap (fun c => c.interazioni.map (fun i => (c.codiceFiscale, i))))
        base := by
  rw [caricaInterazioni, salvaInterazioniContent,
    leggiLinee_unisciLinee (by
      intro l hl
      obtain ⟨c, hc, hm⟩ := List.mem_flatMap.mp hl
      obtain ⟨i, hi, rfl⟩ := List.mem_map.mp hm
      have hc2 := h c hc
      exact nl_not_mem_encodeInterazione hc2.2.2.2.2.2.1 (hc2.2.2.2.2.2.2.2 i hi)),
    caricaInterazioniLinee_eq, coppieDaLinee_salva h]

lemma loadPairs_salva {st : List Cliente} (hdist : codiciDistinti st) :
    loadPairs (st.flatMap (fun c => c.interazioni.map (fun i => (c.codiceFiscale, i))))
      (st.map resetInterazioni) = st := by
  apply List.ext_getElem
  · rw [loadPairs_length, List.length_map]
  · intro n h1 h2
    have hn : n < (st.map resetInterazioni).length := by simpa using h2
    rw [← List.getD_eq_getElem _ clienteVuoto h1, loadPairs_getD _ _ n hn]
    have hbase : (st.map resetInterazioni).getD n clienteVuoto =
        resetInterazioni (st.getD n clienteVuoto) := by
      rw [List.getD_eq_getElem _ clienteVuoto hn, List.getElem_map,
        ← List.getD_eq_getElem _ clienteVuoto h2]
    have hpoo : primaOcc (st.map resetInterazioni) n :=
      codiciDistinti_primaOcc (codiciDistinti_map_reset hdist) hn
    rw [if_pos hpoo]
    simp only [hbase]
    rw [show (resetInterazioni (st.getD n clienteVuoto)).codiceFiscale =
      (st.getD n clienteVuoto).codiceFiscale from rfl]
    rw [filter_coppie_distinti st hdist n h2]
    simp only [resetInterazioni, List.map_map]
    simp [← List.getD_eq_getElem _ clienteVuoto h2]

/-! ### Lemmas: every operation preserves distinctness of tax codes -/

lemma codiciDistinti_of_map_eq {a b : List Cliente}
    (h : b.map (fun c => c.codiceFiscale) = a.map (fun c => c.codiceFiscale))
    (hd : codiciDistinti a) : codiciDistinti b := by
  have ha : (a.map (fun c => c.codiceFiscale)).Pairwise (· ≠ ·) :=
    List.pairwise_map.mpr hd
  rw [← h] at ha
  exact List.pairwise_map.mp ha

lemma aggiornaCampi_codice (c : Cliente)
    (n co e t ind d : Str) :
    (aggiornaCampi c n co e t ind d).codiceFiscale = c.codiceFiscale := rfl

lemma rimuoviInterazione_codice (c : Cliente) (pos : Int) :
    (c.rimuoviInterazione pos).codiceFiscale = c.codiceFiscale := by
  unfold Cliente.rimuoviInterazione
  split <;> rfl

lemma modificaPrimo_map_codice {cf : Str} {f : Cliente → Cliente}
    (hf : ∀ c, (f c).codiceFiscale = c.codiceFiscale) {st res : List Cliente}
    (h : modificaPrimo cf f st = some res) :
    res.map (fun c => c.codiceFiscale) = st.map (fun c => c.codiceFiscale) := by
  induction st generalizing res with
  | nil => simp [modificaPrimo] at h
  | cons c resto ih =>
    by_cases hc : c.codiceFiscale = cf
    · simp only [modificaPrimo, if_pos hc, Option.some_inj] at h
      subst h
      simp [hf]
    · simp only [modificaPrimo, if_neg hc, Option.map_eq_some'] at h
      obtain ⟨r2, hr2, rfl⟩ := h
      simp [ih hr2]

lemma eliminaInterazione_map_codice {cf : Str} {pos : Int} {st res : List Cliente}
    (h : eliminaInterazione cf pos st = some res) :
    res.map (fun c => c.codiceFiscale) = st.map (fun c => c.codiceFiscale) := by
  induction st generalizing res with
  | nil => simp [eliminaInterazione] at h
  | cons c resto ih =>
    by_cases hc : c.codiceFiscale = cf
    · rw [show eliminaInterazione cf pos (c :: resto) =
        (if 0 ≤ pos ∧ pos < (c.interazioni.length : Int) then
          some (c.rimuoviInterazione pos :: resto)
        else none) by simp [eliminaInterazione, hc]] at h
      by_cases hr : 0 ≤ pos ∧ pos < (c.interazioni.length : Int)
      · rw [if_pos hr, Option.some_inj] at h
        subst h
        simp [rimuoviInterazione_codice]
      · rw [if_neg hr] at h
        cases h
    · rw [show eliminaInterazione cf pos (c :: resto) =
        (eliminaInterazione cf pos resto).map (c :: ·) by
          simp [eliminaInterazione, hc]] at h
      rw [Option.map_eq_some'] at h
      obtain ⟨r2, hr2, rfl⟩ := h
      simp [ih hr2]

lemma attach1_map_codice (cf : Str) (itz : Interazione) (st : List Cliente) :
    (attach1 cf itz st).map (fun c => c.codiceFiscale) =
      st.map (fun c => c.codiceFiscale) := by
  induction st with
  | nil => rfl
  | cons c resto ih =>
    by_cases hc : c.codiceFiscale = cf
    · simp [attach1, hc, Cliente.aggiungiInterazione]
    · simp [attach1, hc, ih]

lemma loadPairs_map_codice (coppie : List (Str × Interazione)) (st : List Cliente) :
    (loadPairs coppie st).map (fun c => c.codiceFiscale) =
      st.map (fun c => c.codiceFiscale) := by
  induction coppie generalizing st with
  | nil => rfl
  | cons p ps ih =>
    rw [show loadPairs (p :: ps) st = loadPairs ps (attach1 p.1 p.2 st) from rfl, ih,
      attach1_map_codice]

lemma caricaInterazioni_map_codice (base : List Cliente) (content : Str) :
    (caricaInterazioni base content).map (fun c => c.codiceFiscale) =
      base.map (fun c => c.codiceFiscale) := by
  rw [caricaInterazioni, caricaInterazioniLinee_eq, loadPairs_map_codice]

lemma esegui_preserva {st : List Cliente} (hdist : codiciDistinti st) (op : Op)
    (hop : caricaSicura op) : codiciDistinti (esegui st op) := by
  cases op with
  | add n co e t ind cf d =>
    show codiciDistinti ((aggiungiCliente st n co e t ind cf d).getD st)
    cases hx : aggiungiCliente st n co e t ind cf d with
    | none => simpa using hdist
    | some res =>
      unfold aggiungiCliente at hx
      by_cases hs : (trovaCliente st cf).isSome
      · rw [if_pos hs] at hx
        cases hx
      · rw [if_neg hs, Option.some_inj] at hx
        subst hx
        simp only [Option.getD_some]
        unfold codiciDistinti
        rw [List.pairwise_append]
        refine ⟨hdist, by simp, ?_⟩
        intro a ha b hb
        simp only [List.mem_singleton] at hb
        subst hb
        have hnone : trovaCliente st cf = none := Option.not_isSome_iff_eq_none.mp hs
        have h2 := (trovaCliente_eq_none_iff st cf).mp hnone a ha
        simpa using h2
  | update cf n co e t ind d =>
    show codiciDistinti ((modificaCliente st cf n co e t ind d).getD st)
    cases hx : modificaCliente st cf n co e t ind d with
    | none => simpa using hdist
    | some res =>
      simp only [Option.getD_some]
      exact codiciDistinti_of_map_eq
        (modificaPrimo_map_codice (fun c => aggiornaCampi_codice c n co e t ind d) hx) hdist
  | remove cf =>
    show codiciDistinti ((eliminaCliente cf st).getD st)
    cases hx : eliminaCliente cf st with
    | none => simpa using hdist
    | some res =>
      simp only [Option.getD_some]
      exact List.Pairwise.sublist (eliminaCliente_sublist hx) hdist
  | addInter cf itz =>
    show codiciDistinti ((aggiungiInterazioneCRM st cf itz).getD st)
    cases hx : aggiungiInterazioneCRM st cf itz with
    | none => simpa using hdist
    | some res =>
      simp only [Option.getD_some]
      rw [aggiungiInterazioneCRM] at hx
      exact codiciDistinti_of_map_eq
        (modificaPrimo_map_codice
          (f := fun c => c.aggiungiInterazione itz) (fun c => rfl) hx) hdist
  | removeInter cf pos =>
    show codiciDistinti ((eliminaInterazione cf pos st).getD st)
    cases hx : eliminaInterazione cf pos st with
    | none => simpa using hdist
    | some res =>
      simp only [Option.getD_some]
      exact codiciDistinti_of_map_eq (eliminaInterazione_map_codice hx) hdist
  | salva okC okI => exact hdist
  | carica fc fi =>
    show codiciDistinti (caricaDati st fc fi).2
    cases fc with
    | none => simpa [caricaDati] using hdist
    | some contentC =>
      cases fi with
      | none => simpa [caricaDati] using hdist
      | some contentI =>
        show codiciDistinti (caricaInterazioni (caricaClienti contentC) contentI)
        have hsafe : codiciDistinti (caricaClienti contentC) := hop
        exact codiciDistinti_of_map_eq
          (caricaInterazioni_map_codice (caricaClienti contentC) contentI) hsafe

lemma eseguiTutte_aux (ops : List Op) :
    ∀ st, codiciDistinti st → (∀ op ∈ ops, caricaSicura op) →
      codiciDistinti (ops.foldl esegui st) := by
  induction ops with
  | nil =>
    intro st h _
    exact h
  | cons op resto ih =>
    intro st h hops
    rw [List.foldl_cons]
    exact ih (esegui st op) (esegui_preserva h op (hops op (by simp)))
      (fun x hx => hops x (by simp [hx]))

/-! ### Lemmas: substring search -/

lemma leadsWith_iff (needle hay : Str) : leadsWith hay needle = true ↔ needle <+: hay := by
  induction hay generalizing needle with
  | nil =>
    cases needle with
    | nil => simp [leadsWith]
    | cons d ds => simp [leadsWith]
  | cons c cs ih =>
    cases needle with
    | nil => simp [leadsWith, List.nil_prefix]
    | cons d ds =>
      rw [show leadsWith (c :: cs) (d :: ds) = (decide (c = d) && leadsWith cs ds) from rfl]
      rw [List.cons_prefix_cons, Bool.and_eq_true, decide_eq_true_eq, ih ds]
      constructor
      · rintro ⟨h1, h2⟩
        exact ⟨h1.symm, h2⟩
      · rintro ⟨h1, h2⟩
        exact ⟨h1.symm, h2⟩

lemma findSub_iff (needle hay : Str) : findSub hay needle = true ↔ needle <:+: hay := by
  induction hay with
  | nil =>
    rw [show findSub [] needle = needle.isEmpty from rfl]
    cases needle <;> simp [List.infix_nil]
  | cons c cs ih =>
    rw [show findSub (c :: cs) needle = (leadsWith (c :: cs) needle || findSub cs needle)
      from rfl]
    rw [Bool.or_eq_true, leadsWith_iff, ih, List.infix_cons_iff]

lemma cercaClienteAux_eq (ricerca : Str) :
    ∀ (clienti : List Cliente) (k : Nat),
      cercaClienteAux ricerca clienti k =
        (List.enumFrom k clienti).filter (fun p => p.2.contieneStringa ricerca) := by
  intro clienti
  induction clienti with
  | nil =>
    intro k
    rfl
  | cons c resto ih =>
    intro k
    rw [List.enumFrom_cons, List.filter_cons]
    by_cases h : c.contieneStringa ricerca
    · rw [show cercaClienteAux ricerca (c :: resto) k =
        (k, c) :: cercaClienteAux ricerca resto (k + 1) by simp [cercaClienteAux, h]]
      rw [ih (k + 1), if_pos (by simpa using h)]
    · rw [show cercaClienteAux ricerca (c :: resto) k =
        cercaClienteAux ricerca resto (k + 1) by simp [cercaClienteAux, h]]
      rw [ih (k + 1), if_neg (by simpa using h)]

/-! ### Lemmas: line filtering and load views -/

lemma clientiDaLinee_filter (linee : List Str) :
    clientiDaLinee linee =
      (linee.filter (fun l => l ≠ [])).filterMap decodeClienteLinea := by
  induction linee with
  | nil => rfl
  | cons l ls ih =>
    by_cases hl : l = []
    · rw [show clientiDaLinee (l :: ls) = clientiDaLinee ls by
        simp [clientiDaLinee, List.filterMap_cons, hl]]
      rw [ih, List.filter_cons, if_neg (by simp [hl])]
    · rw [show clientiDaLinee (l :: ls) =
        (decodeClienteLinea l).toList ++ clientiDaLinee ls by
          simp [clientiDaLinee, List.filterMap_cons, hl]
          split <;> simp_all]
      rw [ih, List.filter_cons, if_pos (by simp [hl]), List.filterMap_cons]
      cases decodeClienteLinea l <;> simp

lemma filter_ne_nil_dropLast {l : List Str} (h : l.getLast? = some []) :
    (l.dropLast.filter (fun x => x ≠ [])) = l.filter (fun x => x ≠ []) := by
  have hne : l ≠ [] := by
    intro e
    subst e
    simp at h
  have hlast : l.getLast hne = [] := by
    have he := List.getLast?_eq_getLast l hne
    rw [he] at h
    exact Option.some_inj.mp h
  conv_rhs => rw [← List.dropLast_append_getLast hne]
  rw [List.filter_append, hlast]
  simp

lemma leggiLinee_filter (content : Str) :
    (leggiLinee content).filter (fun l => l ≠ []) =
      (splitSep nl content).filter (fun l => l ≠ []) := by
  rw [leggiLinee]
  by_cases h : (splitSep nl content).getLast? = some []
  · rw [if_pos h]
    exact filter_ne_nil_dropLast h
  · rw [if_neg h]

lemma caricaClienti_interazioni {content : Str} :
    ∀ c ∈ caricaClienti content, c.interazioni = [] := by
  intro c hc
  rw [caricaClienti, caricaClientiLinee_eq] at hc
  obtain ⟨l, -, hl⟩ := List.mem_filterMap.mp hc
  by_cases he : l = []
  · rw [if_pos he] at hl
    cases hl
  · rw [if_neg he, decodeClienteLinea] at hl
    by_cases h7 : (splitCampi l).length = 7
    · rw [if_pos h7, Option.some_inj] at hl
      subst hl
      rfl
    · rw [if_neg h7] at hl
      cases hl

lemma codice_getD_of_map_eq {a b : List Cliente}
    (h : a.map (fun c => c.codiceFiscale) = b.map (fun c => c.codiceFiscale)) (k : Nat) :
    (a.getD k clienteVuoto).codiceFiscale = (b.getD k clienteVuoto).codiceFiscale := by
  have hlen : a.length = b.length := by
    have := congrArg List.length h
    simpa using this
  by_cases hk : k < a.length
  · have hk2 : k < b.length := by omega
    have h2 := congrArg (fun l => l[k]?) h
    simp only [List.getElem?_map, List.getElem?_eq_getElem hk,
      List.getElem?_eq_getElem hk2, Option.map_some'] at h2
    rw [List.getD_eq_getElem _ clienteVuoto hk, List.getD_eq_getElem _ clienteVuoto hk2]
    exact Option.some_inj.mp h2
  · rw [List.getD_eq_default _ _ (by omega), List.getD_eq_default _ _ (by omega)]

lemma primaOcc_of_map_eq {a b : List Cliente}
    (h : a.map (fun c => c.codiceFiscale) = b.map (fun c => c.codiceFiscale)) (i : Nat) :
    primaOcc a i ↔ primaOcc b i := by
  unfold primaOcc
  constructor
  · intro hp j hj
    rw [← codice_getD_of_map_eq h j, ← codice_getD_of_map_eq h i]
    exact hp j hj
  · intro hp j hj
    rw [codice_getD_of_map_eq h j, codice_getD_of_map_eq h i]
    exact hp j hj

/-! ### Lemmas: removing one interaction -/

lemma eliminaInterazione_eq (cf : Str) (pos : Int) :
    ∀ clienti : List Cliente,
      eliminaInterazione cf pos clienti =
        match trovaCliente clienti cf with
        | none => none
        | some i =>
          if 0 ≤ pos ∧ pos < ((clienti.getD i clienteVuoto).interazioni.length : Int) then
            some (clienti.set i ((clienti.getD i clienteVuoto).rimuoviInterazione pos))
          else none := by
  intro clienti
  induction clienti with
  | nil => rfl
  | cons c resto ih =>
    by_cases hc : c.codiceFiscale = cf
    · rw [show trovaCliente (c :: resto) cf = some 0 by simp [trovaCliente, hc]]
      by_cases hr : 0 ≤ pos ∧ pos < (c.interazioni.length : Int)
      · simp [eliminaInterazione, hc, hr]
      · simp [eliminaInterazione, hc, hr]
    · rw [show trovaCliente (c :: resto) cf = (trovaCliente resto cf).map (· + 1) by
        simp [trovaCliente, hc]]
      rw [show eliminaInterazione cf pos (c :: resto) =
        (eliminaInterazione cf pos resto).map (c :: ·) by simp [eliminaInterazione, hc]]
      rw [ih]
      cases trovaCliente resto cf with
      | none => rfl
      | some i =>
        simp only [Option.map_some', List.getD_cons_succ]
        by_cases hr : 0 ≤ pos ∧ pos < ((resto.getD i clienteVuoto).interazioni.length : Int)
        · rw [if_pos hr, if_pos hr]
          rfl
        · rw [if_neg hr, if_neg hr]
          rfl

lemma eraseIdx_getD_lt {l : List Interazione} {i k : Nat} (hi : i < l.length) (h : k < i) :
    (l.eraseIdx i).getD k interazioneVuota = l.getD k interazioneVuota := by
  have hk : k < (l.eraseIdx i).length := by
    rw [List.length_eraseIdx, if_pos hi]
    omega
  rw [List.getD_eq_getElem _ _ hk, List.getD_eq_getElem _ _ (by omega), List.getElem_eraseIdx,
    dif_pos h]

lemma eraseIdx_getD_ge {l : List Interazione} {i k : Nat} (hi : i < l.length) (h : i ≤ k) :
    (l.eraseIdx i).getD k interazioneVuota = l.getD (k + 1) interazioneVuota := by
  by_cases hk : k < (l.eraseIdx i).length
  · have hk2 : k + 1 < l.length := by
      rw [List.length_eraseIdx, if_pos hi] at hk
      omega
    rw [List.getD_eq_getElem _ _ hk, List.getD_eq_getElem _ _ hk2, List.getElem_eraseIdx,
      dif_neg (by omega)]
  · have hlen : l.length - 1 ≤ k := by
      rw [List.length_eraseIdx, if_pos hi] at hk
      omega
    rw [List.getD_eq_default _ _ (by omega), List.getD_eq_default _ _ (by
      rw [List.length_eraseIdx, if_pos hi] at hk
      omega)]

/-! ### Claim theorems -/

/-- C1 (amended): for every Store whose customers have pairwise-distinct
tax codes and all of whose field values contain neither the separator
`|` nor a newline, saving to the two files and then loading fresh from
those same contents reproduces the same customers in the same order
with all fields equal, each with the same interactions in the same
order.  (Without the separator-free hypothesis the round trip can fail,
see the counterexample.) -/
theorem C1_round_trip (st : List Cliente) (hdist : codiciDistinti st)
    (hpul : ∀ c ∈ st, clientePulito c) :
    caricaDati [] (some (salvaClientiContent st)) (some (salvaInterazioniContent st)) =
      (true, st) := by
  show (true, caricaInterazioni (caricaClienti (salvaClientiContent st))
    (salvaInterazioniContent st)) = (true, st)
  rw [caricaClienti_salva hpul, caricaInterazioni_salva hpul, loadPairs_salva hdist]

/-- Witness for C1: a concrete two-customer store, one owning an
interaction, survives the round trip unchanged. -/
theorem C1_round_trip_witness :
    caricaDati []
      (some (salvaClientiContent
        [⟨['A'], ['B'], ['e'], ['0'], ['v'], ['X'], ['d'],
          [⟨['1'], ['2'], .APPUNTAMENTO, ['D'], ['G'], ['R']⟩]⟩,
         ⟨['C'], [], [], [], [], ['Y'], [], []⟩]))
      (some (salvaInterazioniContent
        [⟨['A'], ['B'], ['e'], ['0'], ['v'], ['X'], ['d'],
          [⟨['1'], ['2'], .APPUNTAMENTO, ['D'], ['G'], ['R']⟩]⟩,
         ⟨['C'], [], [], [], [], ['Y'], [], []⟩])) =
      (true,
        [⟨['A'], ['B'], ['e'], ['0'], ['v'], ['X'], ['d'],
          [⟨['1'], ['2'], .APPUNTAMENTO, ['D'], ['G'], ['R']⟩]⟩,
         ⟨['C'], [], [], [], [], ['Y'], [], []⟩]) :=
  C1_round_trip _ (by decide) (by decide)

/-- C1 as frozen is false on the code: a store with pairwise-distinct
tax codes whose first name contains the separator `|` does not survive
the round trip (its customer line splits into eight fields and is
dropped by the load). -/
theorem C1_counterexample :
    codiciDistinti [⟨['a', '|', 'b'], [], [], [], [], ['X'], [], []⟩] ∧
      caricaDati []
        (some (salvaClientiContent [⟨['a', '|', 'b'], [], [], [], [], ['X'], [], []⟩]))
        (some (salvaInterazioniContent [⟨['a', '|', 'b'], [], [], [], [], ['X'], [], []⟩]))
        ≠ (true, [⟨['a', '|', 'b'], [], [], [], [], ['X'], [], []⟩]) := by
  decide

/-- C2 (amended): starting from the empty store, after every sequence
of add, update, remove, addInteraction, removeInteraction, save and
load operations in which each load reads a customer file whose decoded
customers carry pairwise-distinct tax codes (as the files written by
save from such a store do), no two customers in the store have equal
tax codes.  (A load of arbitrary file contents can break the invariant,
see the counterexample.) -/
theorem C2_invariant (ops : List Op) (h : ∀ op ∈ ops, caricaSicura op) :
    codiciDistinti (eseguiTutte ops) :=
  eseguiTutte_aux ops [] List.Pairwise.nil h

/-- Witness for C2: a concrete trace of two adds and a safe load keeps
the codes distinct. -/
theorem C2_invariant_witness :
    codiciDistinti (eseguiTutte
      [Op.add ['A'] [] [] [] [] ['X'] [],
       Op.add ['B'] [] [] [] [] ['Y'] [],
       Op.carica
         (some (unisciLinee [['a', '|', 'b', '|', 'c', '|', 'd', '|', 'e', '|', 'Z', '|', 'g']]))
         (some [])]) :=
  C2_invariant _ (by decide)

/-- C2 as frozen is false on the code: `caricaDati` performs no
duplicate check, so loading a customer file with two lines carrying the
same tax code puts two customers with equal codes into the store. -/
theorem C2_counterexample :
    ¬ codiciDistinti (eseguiTutte
      [Op.carica
        (some (unisciLinee
          [['a', '|', 'b', '|', 'c', '|', 'd', '|', 'e', '|', 'X', '|', 'g'],
           ['h', '|', 'i', '|', 'j', '|', 'k', '|', 'l', '|', 'X', '|', 'm']]))
        (some [])]) := by
  decide

/-- C3: `add` fails exactly when some customer already carries the new
tax code, leaving the collection unchanged (the `none` result), and
otherwise appends the freshly constructed customer at the end of the
collection with all earlier customers unchanged and in order. -/
theorem C3_add (clienti : List Cliente)
    (nome cognome email telefono indirizzo codiceFiscale dataNascita : Str) :
    ((∃ x ∈ clienti, x.codiceFiscale = codiceFiscale) →
      aggiungiCliente clienti nome cognome email telefono indirizzo codiceFiscale
        dataNascita = none) ∧
    ((∀ x ∈ clienti, x.codiceFiscale ≠ codiceFiscale) →
      aggiungiCliente clienti nome cognome email telefono indirizzo codiceFiscale
        dataNascita = some (clienti ++
          [⟨nome, cognome, email, telefono, indirizzo, codiceFiscale, dataNascita, []⟩])) := by
  constructor
  · rintro ⟨x, hx, he⟩
    have hne : trovaCliente clienti codiceFiscale ≠ none := by
      intro hn
      exact (trovaCliente_eq_none_iff _ _).mp hn x hx he
    rw [aggiungiCliente, if_pos (Option.ne_none_iff_isSome.mp hne)]
  · intro h
    have hnone : trovaCliente clienti codiceFiscale = none :=
      (trovaCliente_eq_none_iff _ _).mpr h
    rw [aggiungiCliente, if_neg (by simp [hnone])]

/-- Witness for C3: adding a duplicate code fails, adding a fresh code
appends. -/
theorem C3_add_witness :
    aggiungiCliente [⟨['a'], [], [], [], [], ['X'], [], []⟩]
      ['b'] [] [] [] [] ['X'] [] = none ∧
    aggiungiCliente [] ['a'] [] [] [] [] ['X'] [] =
      some [⟨['a'], [], [], [], [], ['X'], [], []⟩] :=
  ⟨(C3_add [⟨['a'], [], [], [], [], ['X'], [], []⟩] ['b'] [] [] [] [] ['X'] []).1
      (by decide),
    (C3_add [] ['a'] [] [] [] [] ['X'] []).2 (by decide)⟩

/-- C10: when either file cannot be opened for reading, `caricaDati`
returns failure with the in-memory collection exactly as it was: the
clearing of the collection happens only after both files have opened. -/
theorem C10_failed_load (clienti : List Cliente) (fc fi : Option Str)
    (h : fc = none ∨ fi = none) :
    caricaDati clienti fc fi = (false, clienti) := by
  rcases h with rfl | rfl
  · cases fi <;> rfl
  · cases fc <;> rfl

/-- Witness for C10: a missing customer file leaves a nonempty store
untouched. -/
theorem C10_failed_load_witness :
    caricaDati [clienteMario] none (some [nl]) = (false, [clienteMario]) :=
  C10_failed_load [clienteMario] none (some [nl]) (Or.inl rfl)

/-- C4: after a successful load, the interaction list of the customer
at any position `i` consists exactly of the interactions of the decoded
`(taxCode, interaction)` pairs whose tax code equals that customer's
tax code, in file order, when `i` is the first position carrying that
code, and is empty otherwise.  In particular every loaded interaction
sits under the customer its line's leading tax-code field names, a line
whose tax code matches no loaded customer is dropped, and a kept line
lands on exactly the first matching customer. -/
theorem C4_referential_integrity (contentC contentI : Str) (i : Nat)
    (h : i < (caricaDati [] (some contentC) (some contentI)).2.length) :
    (((caricaDati [] (some contentC) (some contentI)).2.getD i clienteVuoto).interazioni =
      if primaOcc (caricaDati [] (some contentC) (some contentI)).2 i then
        ((coppieDaLinee (leggiLinee contentI)).filter
          (fun p => p.1 =
            ((caricaDati [] (some contentC) (some contentI)).2.getD i
              clienteVuoto).codiceFiscale)).map Prod.snd
      else []) := by
  have e : (caricaDati [] (some contentC) (some contentI)).2 =
      loadPairs (coppieDaLinee (leggiLinee contentI)) (caricaClienti contentC) := by
    show caricaInterazioni (caricaClienti contentC) contentI = _
    rw [caricaInterazioni, caricaInterazioniLinee_eq]
  rw [e] at h ⊢
  have hb : i < (caricaClienti contentC).length := by
    rwa [loadPairs_length] at h
  rw [loadPairs_getD _ _ i hb]
  have hbase : ((caricaClienti contentC).getD i clienteVuoto).interazioni = [] :=
    caricaClienti_interazioni _ (getD_mem hb)
  simp only [primaOcc_of_map_eq
    (loadPairs_map_codice (coppieDaLinee (leggiLinee contentI)) (caricaClienti contentC)) i]
  have hbase2 : ((caricaClienti contentC)[i]?.getD clienteVuoto).interazioni = [] := by
    rw [← List.getD_eq_getElem?_getD]
    exact hbase
  simp [hbase, hbase2]

/-- Witness for C4: loading one customer `X` together with one matching
interaction line and one orphan line (code `Z`) attaches exactly the
matching interaction. -/
theorem C4_referential_integrity_witness :
    ((caricaDati []
        (some (unisciLinee [['n', '|', 'c', '|', 'e', '|', 't', '|', 'a', '|', 'X', '|', 'd']]))
        (some (unisciLinee
          [['X', '|', '1', '|', '2', '|', 'q', '|', 'D', '|', 'G', '|', 'R'],
           ['Z', '|', '3', '|', '4', '|', 'q', '|', 'D', '|', 'G', '|', 'R']]))).2.getD 0
      clienteVuoto).interazioni =
      [⟨['1'], ['2'], .ALTRO, ['D'], ['G'], ['R']⟩] := by
  rw [C4_referential_integrity
    (unisciLinee [['n', '|', 'c', '|', 'e', '|', 't', '|', 'a', '|', 'X', '|', 'd']])
    (unisciLinee
      [['X', '|', '1', '|', '2', '|', 'q', '|', 'D', '|', 'G', '|', 'R'],
       ['Z', '|', '3', '|', '4', '|', 'q', '|', 'D', '|', 'G', '|', 'R']])
    0 (by decide)]
  decide

/-- C5: the customer reading loop splits every line on the separator,
turns a line into a customer (with empty interaction list, appended in
file order) exactly when the split yields seven fields, and skips blank
lines and lines with any other field count without aborting; a file
with one well-formed seven-field line and one five-field line loads
exactly one customer. -/
theorem C5_malformed_tolerance :
    (∀ content : Str,
      caricaClienti content =
        ((splitSep nl content).filter (fun l => l ≠ [])).filterMap
          (fun l =>
            if (splitSep sep l).length = 7 then
              some ⟨(splitSep sep l).getD 0 [], (splitSep sep l).getD 1 [],
                (splitSep sep l).getD 2 [], (splitSep sep l).getD 3 [],
                (splitSep sep l).getD 4 [], (splitSep sep l).getD 5 [],
                (splitSep sep l).getD 6 [], []⟩
            else none)) ∧
    caricaClienti (unisciLinee
      [['a', '|', 'b', '|', 'c', '|', 'd', '|', 'e', '|', 'f', '|', 'g'],
       ['1', '|', '2', '|', '3', '|', '4', '|', '5']]) =
      [⟨['a'], ['b'], ['c'], ['d'], ['e'], ['f'], ['g'], []⟩] := by
  constructor
  · intro content
    rw [caricaClienti, caricaClientiLinee_eq, clientiDaLinee_filter, leggiLinee_filter]
    apply List.filterMap_congr
    intro l hl
    simp only [decodeClienteLinea, splitCampi_eq_splitSep]
  · decide

/-- C6: the customer match predicate is true exactly when the
lower-cased term is a contiguous substring of the lower-cased first
name, surname, email or phone, or the term itself (case-sensitively) is
a substring of the tax code; a customer with first name `"Mario"` is
matched, and returned by the search, for both `"mario"` and `"MARIO"`;
and the customer search returns exactly the matching customers paired
with their positions, in store order. -/
theorem C6_search :
    (∀ (c : Cliente) (t : Str),
      c.contieneStringa t = true ↔
        (toLowerStr t <:+: toLowerStr c.nome ∨ toLowerStr t <:+: toLowerStr c.cognome ∨
          toLowerStr t <:+: toLowerStr c.email ∨ toLowerStr t <:+: toLowerStr c.telefono ∨
          t <:+: c.codiceFiscale)) ∧
    (clienteMario.contieneStringa ['m', 'a', 'r', 'i', 'o'] = true ∧
      clienteMario.contieneStringa ['M', 'A', 'R', 'I', 'O'] = true ∧
      cercaCliente [clienteMario] ['m', 'a', 'r', 'i', 'o'] = [(0, clienteMario)] ∧
      cercaCliente [clienteMario] ['M', 'A', 'R', 'I', 'O'] = [(0, clienteMario)]) ∧
    (∀ (clienti : List Cliente) (t : Str),
      cercaCliente clienti t =
        clienti.enum.filter (fun p => p.2.contieneStringa t)) := by
  refine ⟨?_, by decide, ?_⟩
  · intro c t
    simp only [Cliente.contieneStringa, Bool.or_eq_true, findSub_iff]
    tauto
  · intro clienti t
    rw [cercaCliente, cercaClienteAux_eq]
    rfl

/-- C7: when a customer with the given tax code exists, `update`
overwrites exactly the non-empty supplied fields of the first such
customer, keeps every empty-supplied field, never touches the tax code
or the interaction list, and leaves every other position of the
collection unchanged. -/
theorem C7_update (clienti : List Cliente)
    (cf n co e t ind d : Str) (i : Nat) (hi : trovaCliente clienti cf = some i) :
    modificaCliente clienti cf n co e t ind d =
      some (clienti.set i
        { nome := if n = [] then (clienti.getD i clienteVuoto).nome else n
          cognome := if co = [] then (clienti.getD i clienteVuoto).cognome else co
          email := if e = [] then (clienti.getD i clienteVuoto).email else e
          telefono := if t = [] then (clienti.getD i clienteVuoto).telefono else t
          indirizzo := if ind = [] then (clienti.getD i clienteVuoto).indirizzo else ind
          codiceFiscale := (clienti.getD i clienteVuoto).codiceFiscale
          dataNascita := if d = [] then (clienti.getD i clienteVuoto).dataNascita else d
          interazioni := (clienti.getD i clienteVuoto).interazioni }) ∧
    (∀ (x : Cliente) (j : Nat), j ≠ i →
      (clienti.set i x).getD j clienteVuoto = clienti.getD j clienteVuoto) := by
  constructor
  · rw [modificaCliente, modificaPrimo_eq_set _ hi]
    rfl
  · intro x j hj
    rw [List.getD_eq_getElem?_getD, List.getD_eq_getElem?_getD,
      List.getElem?_set_ne (fun he => hj he.symm)]

/-- Witness for C7: updating customer `X` with a new first name and all
other fields empty changes only the first name. -/
theorem C7_update_witness :
    modificaCliente [⟨['a'], ['b'], ['c'], ['d'], ['e'], ['X'], ['f'],
        [⟨['1'], ['2'], .ALTRO, ['D'], ['G'], ['R']⟩]⟩]
      ['X'] ['N'] [] [] [] [] [] =
      some [⟨['N'], ['b'], ['c'], ['d'], ['e'], ['X'], ['f'],
        [⟨['1'], ['2'], .ALTRO, ['D'], ['G'], ['R']⟩]⟩] := by
  rw [(C7_update [⟨['a'], ['b'], ['c'], ['d'], ['e'], ['X'], ['f'],
        [⟨['1'], ['2'], .ALTRO, ['D'], ['G'], ['R']⟩]⟩]
      ['X'] ['N'] [] [] [] [] [] 0 (by decide)).1]
  decide

/-- C8 as frozen is false on the code: the display table uses the
Italian strings, so `"Contract"` is not recognized (it decodes to
`ALTRO`) and the display string of the contract kind is not
`"Contract"`. -/
theorem C8_counterexample :
    decodeTipo ['C', 'o', 'n', 't', 'r', 'a', 'c', 't'] ≠ TipoInterazione.CONTRATTO ∧
      tipoStringa TipoInterazione.CONTRATTO ≠ ['C', 'o', 'n', 't', 'r', 'a', 'c', 't'] := by
  decide

/-- C8 (amended): decoding the kind field uses a fixed case-sensitive
table whose recognized display strings are exactly `"Appuntamento"`,
`"Contratto"`, `"Telefonata"`, `"Email"`, `"Altro"`; every other string
decodes silently to `ALTRO`; and decoding the display string produced
for any kind yields that kind again. -/
theorem C8_kind_decode :
    (decodeTipo strAppuntamento = .APPUNTAMENTO ∧ decodeTipo strContratto = .CONTRATTO ∧
      decodeTipo strTelefonata = .TELEFONATA ∧ decodeTipo strEmail = .EMAIL ∧
      decodeTipo strAltro = .ALTRO) ∧
    (∀ s : Str,
      s ∉ [strAppuntamento, strContratto, strTelefonata, strEmail, strAltro] →
        decodeTipo s = .ALTRO) ∧
    (∀ t : TipoInterazione, decodeTipo (tipoStringa t) = t) := by
  refine ⟨by decide, ?_, decodeTipo_tipoStringa⟩
  intro s hs
  simp only [List.mem_cons, List.not_mem_nil, or_false, not_or] at hs
  rw [decodeTipo, if_neg hs.1, if_neg hs.2.1, if_neg hs.2.2.1, if_neg hs.2.2.2.1,
    if_neg hs.2.2.2.2]

/-- Witness for C8: an unrecognized string decodes to `ALTRO`. -/
theorem C8_kind_decode_witness : decodeTipo ['x'] = TipoInterazione.ALTRO :=
  C8_kind_decode.2.1 ['x'] (by decide)

/-- C9: `removeInteraction` fails with NotFound when no customer has
the tax code or the position is outside the valid range of that
customer's list; otherwise it removes exactly the interaction at that
position (positions before it unchanged, later ones shifted down by
one, the list one element shorter) and leaves the customer's other
fields and every other customer unchanged. -/
theorem C9_remove_interaction (clienti : List Cliente) (cf : Str) (pos : Int) :
    ((trovaCliente clienti cf = none → eliminaInterazione cf pos clienti = none) ∧
      (∀ i, trovaCliente clienti cf = some i →
        ¬(0 ≤ pos ∧ pos < (((clienti.getD i clienteVuoto).interazioni.length : Int))) →
        eliminaInterazione cf pos clienti = none)) ∧
    (∀ i, trovaCliente clienti cf = some i →
      0 ≤ pos → pos < (((clienti.getD i clienteVuoto).interazioni.length : Int)) →
      (eliminaInterazione cf pos clienti =
        some (clienti.set i
          { clienti.getD i clienteVuoto with
            interazioni := (clienti.getD i clienteVuoto).interazioni.eraseIdx pos.toNat }) ∧
      ((clienti.getD i clienteVuoto).interazioni.eraseIdx pos.toNat).length + 1 =
        (clienti.getD i clienteVuoto).interazioni.length ∧
      (∀ k, k < pos.toNat →
        ((clienti.getD i clienteVuoto).interazioni.eraseIdx pos.toNat).getD k
          interazioneVuota =
          (clienti.getD i clienteVuoto).interazioni.getD k interazioneVuota) ∧
      (∀ k, pos.toNat ≤ k →
        ((clienti.getD i clienteVuoto).interazioni.eraseIdx pos.toNat).getD k
          interazioneVuota =
          (clienti.getD i clienteVuoto).interazioni.getD (k + 1) interazioneVuota) ∧
      (∀ (x : Cliente) (j : Nat), j ≠ i →
        (clienti.set i x).getD j clienteVuoto = clienti.getD j clienteVuoto))) := by
  refine ⟨⟨?_, ?_⟩, ?_⟩
  · intro hnone
    rw [eliminaInterazione_eq, hnone]
  · intro i hi hnr
    rw [eliminaInterazione_eq, hi]
    exact if_neg hnr
  · intro i hi h0 hlt
    have hr : 0 ≤ pos ∧ pos < (((clienti.getD i clienteVuoto).interazioni.length : Int)) :=
      ⟨h0, hlt⟩
    have hnat : pos.toNat < (clienti.getD i clienteVuoto).interazioni.length := by omega
    refine ⟨?_, by rw [List.length_eraseIdx, if_pos hnat]; omega,
      fun k hk => eraseIdx_getD_lt hnat hk,
      fun k hk => eraseIdx_getD_ge hnat hk,
      fun x j hj => by
        rw [List.getD_eq_getElem?_getD, List.getD_eq_getElem?_getD,
          List.getElem?_set_ne (fun he => hj he.symm)]⟩
    rw [eliminaInterazione_eq, hi]
    show (if 0 ≤ pos ∧ pos < (((clienti.getD i clienteVuoto).interazioni.length : Int)) then
        some (clienti.set i ((clienti.getD i clienteVuoto).rimuoviInterazione pos))
      else none) = _
    rw [if_pos hr,
      show (clienti.getD i clienteVuoto).rimuoviInterazione pos =
        { clienti.getD i clienteVuoto with
          interazioni := (clienti.getD i clienteVuoto).interazioni.eraseIdx pos.toNat } by
        rw [Cliente.rimuoviInterazione, if_pos hr]]

/-- Witness for C9: removing the interaction at position 0 of a
customer owning two interactions keeps exactly the second one. -/
theorem C9_remove_interaction_witness :
    eliminaInterazione ['X'] 0
      [⟨['a'], ['b'], ['c'], ['d'], ['e'], ['X'], ['f'],
        [⟨['1'], ['2'], .ALTRO, ['D'], ['G'], ['R']⟩,
         ⟨['3'], ['4'], .EMAIL, ['H'], ['I'], ['J']⟩]⟩] =
      some [⟨['a'], ['b'], ['c'], ['d'], ['e'], ['X'], ['f'],
        [⟨['3'], ['4'], .EMAIL, ['H'], ['I'], ['J']⟩]⟩] := by
  have h := (C9_remove_interaction
    [⟨['a'], ['b'], ['c'], ['d'], ['e'], ['X'], ['f'],
      [⟨['1'], ['2'], .ALTRO, ['D'], ['G'], ['R']⟩,
       ⟨['3'], ['4'], .EMAIL, ['H'], ['I'], ['J']⟩]⟩]
    ['X'] 0).2 0 (by decide) (by decide) (by decide)
  rw [h.1]
  decide

end Insurapro
